import Mathlib

/-!
Verification of the post persistence and identification layer of the
`cli-cms` repository (a CLI content-management system over SQLite).

The development shallowly embeds:
* the `Post` entity and the `sql.NullString` / `sql.NullTime` conversion
  helpers of `internal/database/conversion.go`,
* the store operations of `internal/database/database.go` together with
  the SQL queries of `internal/database/queries/posts.sql` over an
  explicit in-memory table state (a list of rows plus the AUTOINCREMENT
  counter),
* the slug generator `generateSlug` of the `forms` package,
* the flag-driven update-struct construction of the `cmd` update command.

Machine times (`time.Time` / `DATETIME`) are modelled as natural numbers;
`sql.NullString` / `sql.NullTime` as `Option`.  Errors returned by the
store (`errors.New "post not found"`, the SQLite UNIQUE-constraint
failure) are modelled by the inductive `DbError`.
-/

namespace CMS

/-- `sql.NullString`: `Valid = false` is `none`. From conversion.go,
`StringToNullString`: the empty string maps to the invalid (NULL) value,
any other string to a valid value holding exactly that string. -/
def StringToNullString (s : String) : Option String :=
  if s = "" then none else some s

/-- From conversion.go, `NullStringToString`: an invalid (NULL) value
reads back as the empty string. -/
def NullStringToString (ns : Option String) : String :=
  match ns with
  | none => ""
  | some s => s

/-- From conversion.go, `TimeToNullTime`: the zero time maps to the
invalid (NULL) value.  Times are modelled as `Nat` with zero value `0`. -/
def TimeToNullTime (t : Nat) : Option Nat :=
  if t = 0 then none else some t

/-- From conversion.go, `NullTimeToTime`: an invalid (NULL) value reads
back as the zero time. -/
def NullTimeToTime (nt : Option Nat) : Nat :=
  match nt with
  | none => 0
  | some t => t

/-- The `Post` entity of the canonical database layer: `title` is a
plain string (column `title TEXT NOT NULL`), while `content`, `author`
and `slug` are nullable (`sql.NullString`) and the two timestamps are
nullable (`sql.NullTime`).  The Go zero value has `id = 0`, empty title
and all nullable fields invalid. -/
structure Post where
  id : Nat
  title : String
  content : Option String
  author : Option String
  slug : Option String
  createdAt : Option Nat
  updatedAt : Option Nat
deriving DecidableEq

/-- From conversion.go, `CreatePostFromInput`: builds a `Post` from the
four raw input strings, applying the empty-string-to-NULL rule to
`content`, `author` and `slug` and storing `title` verbatim.  The
remaining fields keep their Go zero values (`id = 0`, both timestamps
invalid). -/
def CreatePostFromInput (title content author slug : String) : Post :=
  { id := 0
    title := title
    content := StringToNullString content
    author := StringToNullString author
    slug := StringToNullString slug
    createdAt := none
    updatedAt := none }

/-- Errors surfaced by the store layer: `errors.New "post not found"`
and the SQLite UNIQUE-constraint failure on `slug`. -/
inductive DbError where
  | notFound
  | constraintViolation
deriving DecidableEq

/-- The state of the `posts` table: the rows in insertion order plus the
next AUTOINCREMENT value for the `id INTEGER PRIMARY KEY AUTOINCREMENT`
column (SQLite assigns ids starting at 1). -/
structure Store where
  rows : List Post
  nextId : Nat
deriving DecidableEq

/-- The state of a freshly created database (after `createTables` /
the migrations): no rows, first id 1. -/
def Store.empty : Store := { rows := [], nextId := 1 }

/-- Does inserting a row with slug `sl` violate the `slug TEXT UNIQUE`
constraint of the schema (database.go, `createTables`)?  SQLite treats
NULLs as pairwise distinct, so only a non-NULL slug can conflict. -/
def slugConflict (sl : Option String) (s : Store) : Bool :=
  match sl with
  | none => false
  | some x => s.rows.any (fun r => decide (r.slug = some x))

/-- From database.go, `CreatePost` with the `INSERT` of posts.sql:
sets both timestamps to `now` (`time.Now()`), inserts the row (which
fails with a constraint violation if the non-NULL slug is already
taken), assigns the next AUTOINCREMENT id and returns the stored post. -/
def CreatePost (now : Nat) (post : Post) (s : Store) :
    Except DbError (Post × Store) :=
  if slugConflict post.slug s then
    .error .constraintViolation
  else
    let row : Post :=
      { post with id := s.nextId, createdAt := some now, updatedAt := some now }
    .ok (row, { rows := s.rows ++ [row], nextId := s.nextId + 1 })

/-- From database.go, `GetPostByID`: `SELECT ... WHERE id = ?` returns
the first matching row, or the "post not found" error when the scan
yields `sql.ErrNoRows`. -/
def GetPostByID (id : Nat) (s : Store) : Except DbError Post :=
  match s.rows.find? (fun r => decide (r.id = id)) with
  | some p => .ok p
  | none => .error .notFound

/-- From database.go, `GetPostBySlug`: `SELECT ... WHERE slug = ?`.  In
SQL a NULL slug compares unequal to every string, so only rows with a
non-NULL slug equal to the argument match. -/
def GetPostBySlug (slug : String) (s : Store) : Except DbError Post :=
  match s.rows.find? (fun r => decide (r.slug = some slug)) with
  | some p => .ok p
  | none => .error .notFound

/-- The update struct passed to `UpdatePostByID` (database.go takes a
`Post` value and reads only its `Title`, `Content` and `Author` fields;
in the revision of database.go under version control these are plain Go
strings, so the written column values are never NULL). -/
structure PostUpdate where
  title : String
  content : String
  author : String
deriving DecidableEq

/-- The effect of the `SET` clause of the update queries on one row:
`title`, `content`, `author` are overwritten with the given values (the
nullable columns receive the — never NULL — strings of the update
struct) and `updated_at` becomes `now`; `id`, `slug` and `created_at`
are not part of the `SET` clause. -/
def applyPostUpdate (now : Nat) (upd : PostUpdate) (r : Post) : Post :=
  { r with title := upd.title, content := some upd.content,
           author := some upd.author, updatedAt := some now }

/-- From database.go, `UpdatePostByID`: runs
`UPDATE posts SET title = ?, content = ?, author = ?, updated_at = ? WHERE id = ?`
with `updated_at = time.Now()`, fails with "post not found" when zero
rows were affected, and otherwise re-fetches the post via
`GetPostByID`. -/
def UpdatePostByID (now : Nat) (id : Nat) (upd : PostUpdate) (s : Store) :
    Except DbError (Post × Store) :=
  match s.rows.find? (fun r => decide (r.id = id)) with
  | none => .error .notFound
  | some _ =>
    match (s.rows.map (fun r =>
        if r.id = id then applyPostUpdate now upd r else r)).find?
        (fun r => decide (r.id = id)) with
    | none => .error .notFound
    | some p =>
      .ok (p, { s with rows := s.rows.map (fun r =>
        if r.id = id then applyPostUpdate now upd r else r) })

/-- From database.go, `UpdatePostBySlug`: first resolves the slug via
`GetPostBySlug`, then delegates to `UpdatePostByID` with the resolved
id. -/
def UpdatePostBySlug (now : Nat) (slug : String) (upd : PostUpdate)
    (s : Store) : Except DbError (Post × Store) :=
  match GetPostBySlug slug s with
  | .error e => .error e
  | .ok existingPost => UpdatePostByID now existingPost.id upd s

/-- Modelled from the spec: the canonical (final-revision) method
`Database.DeletePostByID` is not among the source files — only its
test (`TestDeletePostByID`, which expects no error when deleting the
non-existent id 9999, with the comment "SQLite doesn't return error for
no rows affected") and its query (posts.sql, `DeletePostByID :exec`)
are.  It executes `DELETE FROM posts WHERE id = ?` and returns success
without inspecting the affected row count. -/
def DeletePostByID (id : Nat) (s : Store) : Except DbError Store :=
  .ok { s with rows := s.rows.filter (fun r => decide (r.id ≠ id)) }

/-- Modelled from the spec: the canonical `Database.DeletePostBySlug`,
likewise only witnessed by posts.sql (`DeletePostBySlug :exec`):
executes `DELETE FROM posts WHERE slug = ?` without a row-count check.
A NULL slug never matches the string argument. -/
def DeletePostBySlug (slug : String) (s : Store) : Except DbError Store :=
  .ok { s with rows := s.rows.filter (fun r => decide (r.slug ≠ some slug)) }

/-- Ordering used by the `ListPostsWithPagination` query of posts.sql:
`ORDER BY created_at DESC` (most recent first). -/
def createdDesc (a b : Post) : Prop :=
  NullTimeToTime b.createdAt ≤ NullTimeToTime a.createdAt

instance : DecidableRel createdDesc := fun a b =>
  inferInstanceAs (Decidable (_ ≤ _))

instance : IsTotal Post createdDesc :=
  ⟨fun a b => Nat.le_total (NullTimeToTime b.createdAt) (NullTimeToTime a.createdAt)⟩

instance : IsTrans Post createdDesc :=
  ⟨fun _ _ _ h h2 => Nat.le_trans h2 h⟩

/-- Ordering used by the `ListPosts` query of posts.sql:
`ORDER BY id ASC`. -/
def idAsc (a b : Post) : Prop := a.id ≤ b.id

instance : DecidableRel idAsc := fun a b =>
  inferInstanceAs (Decidable (_ ≤ _))

instance : IsTotal Post idAsc := ⟨fun a b => Nat.le_total a.id b.id⟩

instance : IsTrans Post idAsc := ⟨fun _ _ _ h h2 => Nat.le_trans h h2⟩

/-- Modelled from the spec: the canonical (final-revision) method
`Database.ListPosts` is not among the source files — only its test
(`TestListPosts`, where limit 0 returns every row) and the two queries
it dispatches between (posts.sql) are.  When `limit > 0` it runs
`ListPostsWithPagination` (`ORDER BY created_at DESC LIMIT ? OFFSET ?`,
where SQLite treats a negative offset as 0), otherwise it runs
`ListPosts` (`SELECT * FROM posts ORDER BY id ASC`).  Sorting is
modelled by insertion sort; SQLite leaves the order of ties
unspecified, and the claims only constrain the sortedness of the
result. -/
def ListPosts (limit offset : Int) (s : Store) : List Post :=
  if limit > 0 then
    ((List.insertionSort createdDesc s.rows).drop offset.toNat).take limit.toNat
  else
    List.insertionSort idAsc s.rows

/-- From the final revision of the `cmd` update command (`updatePost`):
the `updates` Post is built from only the flags the caller set
(`cmd.Flags().Changed`); a field whose flag was not supplied keeps the
Go zero value, the empty string.  (The content flag value stands in for
either the `--content` flag or the edited text of the editor path.) -/
def buildCmdUpdates (titleSet : Bool) (titleFlag : String)
    (contentSet : Bool) (contentFlag : String)
    (authorSet : Bool) (authorFlag : String) : PostUpdate :=
  { title := if titleSet then titleFlag else ""
    content := if contentSet then contentFlag else ""
    author := if authorSet then authorFlag else "" }

/-- One store transition of the system: a successful create (the
system's creation entry points — `handler.CreatePost`,
`handler.CreatePostWithContent` and the interactive form's `ToPost` —
all build the inserted row via `CreatePostFromInput`), a successful
update by id or slug, or a delete. -/
inductive Step : Store → Store → Prop where
  | create {s s2 : Store} (now : Nat) (t c a sl : String) (p : Post)
      (h : CreatePost now (CreatePostFromInput t c a sl) s = .ok (p, s2)) :
      Step s s2
  | updateByID {s s2 : Store} (now id : Nat) (upd : PostUpdate) (p : Post)
      (h : UpdatePostByID now id upd s = .ok (p, s2)) : Step s s2
  | updateBySlug {s s2 : Store} (now : Nat) (sl : String) (upd : PostUpdate)
      (p : Post) (h : UpdatePostBySlug now sl upd s = .ok (p, s2)) :
      Step s s2
  | deleteByID {s s2 : Store} (id : Nat) (h : DeletePostByID id s = .ok s2) :
      Step s s2
  | deleteBySlug {s s2 : Store} (sl : String)
      (h : DeletePostBySlug sl s = .ok s2) : Step s s2

/-- A store state is reachable when some sequence of operations produces
it from the freshly initialized database. -/
def Reachable (s : Store) : Prop :=
  Relation.ReflTransGen Step Store.empty s

/-! ## The slug generator (`generateSlug` of the `forms` package) -/

/-- ASCII case folding, the fragment of Go's `strings.ToLower` relevant
here: characters `A`–`Z` map to `a`–`z`; every other character is kept.
(Go lowercases the full Unicode range, but apart from exotic case pairs
every character this model keeps fixed is either already lowercase or
dropped by the later character filter, and every statement below is
instantiated on ASCII strings.) -/
def toLowerChar (c : Char) : Char :=
  if 'A' ≤ c ∧ c ≤ 'Z' then Char.ofNat (c.toNat + 32) else c

/-- `strings.ToLower` over the characters of the string. -/
def stringsToLower (l : List Char) : List Char := l.map toLowerChar

/-- `strings.ReplaceAll(slug, " ", "-")`: the pattern is a single
character, so every space becomes a hyphen. -/
def replaceSpaces (l : List Char) : List Char :=
  l.map (fun c => if c = ' ' then '-' else c)

/-- The character class kept by the filter loop of `generateSlug`:
ASCII lowercase letters, ASCII digits and the hyphen. -/
def isEligible (c : Char) : Bool :=
  decide (('a' ≤ c ∧ c ≤ 'z') ∨ ('0' ≤ c ∧ c ≤ '9') ∨ c = '-')

/-- `strings.ReplaceAll(slug, "--", "-")`: replaces the non-overlapping
occurrences of two consecutive hyphens, scanning left to right. -/
def replaceDoubleHyphen : List Char → List Char
  | [] => []
  | [c] => [c]
  | c1 :: c2 :: rest =>
    if c1 = '-' ∧ c2 = '-' then '-' :: replaceDoubleHyphen rest
    else c1 :: replaceDoubleHyphen (c2 :: rest)

/-- `strings.Contains(slug, "--")`. -/
def hasDoubleHyphen : List Char → Bool
  | [] => false
  | [_] => false
  | c1 :: c2 :: rest =>
    if c1 = '-' ∧ c2 = '-' then true else hasDoubleHyphen (c2 :: rest)

/-- The `for strings.Contains(slug, "--")` loop of `generateSlug`,
with an explicit iteration bound so that the definition is structurally
recursive and computable by the kernel.  Each iteration that fires
strictly shortens the list, so `l.length` iterations always suffice;
`collapseHyphensAux_eq_squash` below proves the bounded loop equal to
the loop's one-pass fixpoint, so no behaviour is lost to the bound. -/
def collapseHyphensAux : Nat → List Char → List Char
  | 0, l => l
  | fuel + 1, l =>
    if hasDoubleHyphen l then collapseHyphensAux fuel (replaceDoubleHyphen l)
    else l

/-- The hyphen-collapsing loop of `generateSlug`. -/
def collapseHyphens (l : List Char) : List Char :=
  collapseHyphensAux l.length l

/-- `strings.Trim(slug, "-")`: removes leading and trailing hyphens. -/
def trimHyphens (l : List Char) : List Char :=
  ((l.dropWhile (fun c => decide (c = '-'))).reverse.dropWhile
    (fun c => decide (c = '-'))).reverse

/-- From the `forms` package, `generateSlug`: lower-case, replace each
space with a hyphen, keep only `[a-z0-9-]`, collapse consecutive
hyphens, trim hyphens at both ends. -/
def generateSlug (title : List Char) : List Char :=
  trimHyphens (collapseHyphens
    (List.filter isEligible (replaceSpaces (stringsToLower title))))

/-- `generateSlug` on `String`s (Go ranges over the runes of the
title). -/
def generateSlugStr (s : String) : String :=
  String.mk (generateSlug s.data)

/-! ## The slug function described by the specification -/

/-- ASCII whitespace (the characters `unicode.IsSpace` accepts in the
ASCII range). -/
def isWhitespaceChar (c : Char) : Bool :=
  decide (c = ' ' ∨ c = '\t' ∨ c = '\n' ∨ c = '\r' ∨
    c = '\x0b' ∨ c = '\x0c')

/-- Replaces every maximal run of whitespace by a single hyphen (the
flag records whether the previous character was whitespace). -/
def squashWhitespaceAux (prevWs : Bool) : List Char → List Char
  | [] => []
  | c :: rest =>
    if isWhitespaceChar c then
      if prevWs then squashWhitespaceAux true rest
      else '-' :: squashWhitespaceAux true rest
    else c :: squashWhitespaceAux false rest

/-- Collapses every maximal run of hyphens to a single hyphen in one
pass (the flag records whether the previous character was a hyphen). -/
def squashHyphensAux (prevHyphen : Bool) : List Char → List Char
  | [] => []
  | c :: rest =>
    if c = '-' then
      if prevHyphen then squashHyphensAux true rest
      else '-' :: squashHyphensAux true rest
    else c :: squashHyphensAux false rest

/-- One-pass collapse of consecutive hyphens. -/
def squashHyphens (l : List Char) : List Char := squashHyphensAux false l

/-- The pure function the claim describes: lower-case the title, replace
runs of whitespace with a single hyphen, drop every character that is
not an ASCII lowercase letter, digit or hyphen, collapse consecutive
hyphens, trim leading and trailing hyphens. -/
def claimedSlug (title : List Char) : List Char :=
  trimHyphens (squashHyphens
    (List.filter isEligible (squashWhitespaceAux false (stringsToLower title))))

/-- `claimedSlug` on `String`s. -/
def claimedSlugStr (s : String) : String :=
  String.mk (claimedSlug s.data)

/-- The amended pure function: identical to `claimedSlug` except that
only spaces are turned into hyphens — every other whitespace character
is dropped by the character filter instead of being hyphenated. -/
def amendedSlug (title : List Char) : List Char :=
  trimHyphens (squashHyphens
    (List.filter isEligible (replaceSpaces (stringsToLower title))))

/-- `amendedSlug` on `String`s. -/
def amendedSlugStr (s : String) : String :=
  String.mk (amendedSlug s.data)

/-! ## Lemmas about the hyphen-collapsing loop -/

theorem replaceDoubleHyphen_length_le :
    ∀ l : List Char, (replaceDoubleHyphen l).length ≤ l.length
  | [] => by simp [replaceDoubleHyphen]
  | [c] => by simp [replaceDoubleHyphen]
  | c1 :: c2 :: rest => by
    by_cases h : c1 = '-' ∧ c2 = '-'
    · have ih := replaceDoubleHyphen_length_le rest
      simp only [replaceDoubleHyphen, if_pos h, List.length_cons]
      omega
    · have ih := replaceDoubleHyphen_length_le (c2 :: rest)
      simp only [replaceDoubleHyphen, if_neg h, List.length_cons]
      simp only [List.length_cons] at ih
      omega

theorem replaceDoubleHyphen_length_lt :
    ∀ l : List Char, hasDoubleHyphen l = true →
      (replaceDoubleHyphen l).length < l.length
  | [] => by simp [hasDoubleHyphen]
  | [c] => by simp [hasDoubleHyphen]
  | c1 :: c2 :: rest => by
    intro h
    by_cases hc : c1 = '-' ∧ c2 = '-'
    · have hle := replaceDoubleHyphen_length_le rest
      simp only [replaceDoubleHyphen, if_pos hc, List.length_cons]
      omega
    · have hrest : hasDoubleHyphen (c2 :: rest) = true := by
        simpa [hasDoubleHyphen, if_neg hc] using h
      have ih := replaceDoubleHyphen_length_lt (c2 :: rest) hrest
      simp only [replaceDoubleHyphen, if_neg hc, List.length_cons]
      simp only [List.length_cons] at ih
      omega

theorem squashHyphensAux_replaceDouble :
    ∀ (l : List Char) (b : Bool),
      squashHyphensAux b (replaceDoubleHyphen l) = squashHyphensAux b l
  | [], _ => rfl
  | [_], _ => rfl
  | c1 :: c2 :: rest, b => by
    by_cases hc : c1 = '-' ∧ c2 = '-'
    · obtain ⟨h1, h2⟩ := hc
      subst h1
      subst h2
      have ih := squashHyphensAux_replaceDouble rest true
      cases b <;>
        simp [replaceDoubleHyphen, squashHyphensAux, ih]
    · have iht := squashHyphensAux_replaceDouble (c2 :: rest) true
      have ihf := squashHyphensAux_replaceDouble (c2 :: rest) false
      simp only [replaceDoubleHyphen, if_neg hc]
      by_cases h1 : c1 = '-' <;> cases b <;>
        simp [squashHyphensAux, h1, iht, ihf]

theorem squash_id_of_no_double :
    ∀ l : List Char, hasDoubleHyphen l = false →
      squashHyphensAux false l = l ∧
      ((∀ h, l.head? = some h → h ≠ '-') → squashHyphensAux true l = l)
  | [] => fun _ => ⟨rfl, fun _ => rfl⟩
  | c :: rest => by
    intro hnd
    have hrest : hasDoubleHyphen rest = false := by
      cases rest with
      | nil => rfl
      | cons c2 r2 =>
        by_cases hc : c = '-' ∧ c2 = '-'
        · simp [hasDoubleHyphen, if_pos hc] at hnd
        · simpa [hasDoubleHyphen, if_neg hc] using hnd
    have hhead : c = '-' → ∀ h2, rest.head? = some h2 → h2 ≠ '-' := by
      intro hc h2 hh2 hh2eq
      cases rest with
      | nil => simp at hh2
      | cons c2 r2 =>
        simp only [List.head?_cons, Option.some.injEq] at hh2
        subst hh2
        subst hh2eq
        simp [hasDoubleHyphen, hc] at hnd
    have ih := squash_id_of_no_double rest hrest
    constructor
    · by_cases h1 : c = '-'
      · simp [squashHyphensAux, h1, ih.2 (hhead h1)]
      · simp [squashHyphensAux, h1, ih.1]
    · intro hh
      have h1 : c ≠ '-' := hh c rfl
      simp [squashHyphensAux, h1, ih.1]

theorem collapseHyphensAux_eq_squash :
    ∀ (fuel : Nat) (l : List Char), l.length ≤ fuel →
      collapseHyphensAux fuel l = squashHyphens l := by
  intro fuel
  induction fuel with
  | zero =>
    intro l hl
    have : l = [] := List.length_eq_zero.mp (Nat.le_zero.mp hl)
    subst this
    rfl
  | succ n ih =>
    intro l hl
    by_cases hd : hasDoubleHyphen l = true
    · have hlt := replaceDoubleHyphen_length_lt l hd
      simp only [collapseHyphensAux, if_pos hd]
      rw [ih _ (by omega)]
      exact squashHyphensAux_replaceDouble l false
    · simp only [collapseHyphensAux, if_neg hd]
      have hfalse : hasDoubleHyphen l = false := by
        simpa using hd
      exact ((squash_id_of_no_double l hfalse).1).symm

theorem collapseHyphens_eq_squash (l : List Char) :
    collapseHyphens l = squashHyphens l :=
  collapseHyphensAux_eq_squash l.length l Nat.le.refl

theorem generateSlug_eq_amendedSlug_list (t : List Char) :
    generateSlug t = amendedSlug t := by
  unfold generateSlug amendedSlug
  rw [collapseHyphens_eq_squash]

/-! ## The shape of generated slugs -/

theorem hasDoubleHyphen_tail_false (c : Char) (rest : List Char)
    (h : hasDoubleHyphen (c :: rest) = false) :
    hasDoubleHyphen rest = false := by
  cases rest with
  | nil => rfl
  | cons c2 r2 =>
    by_cases hc : c = '-' ∧ c2 = '-'
    · simp [hasDoubleHyphen, if_pos hc] at h
    · simpa [hasDoubleHyphen, if_neg hc] using h

theorem hasDoubleHyphen_exists :
    ∀ l : List Char, hasDoubleHyphen l = true →
      ∃ l1 l2, l = l1 ++ '-' :: '-' :: l2
  | [] => by simp [hasDoubleHyphen]
  | [c] => by simp [hasDoubleHyphen]
  | c1 :: c2 :: rest => by
    intro h
    by_cases hc : c1 = '-' ∧ c2 = '-'
    · exact ⟨[], rest, by simp [hc.1, hc.2]⟩
    · have hrest : hasDoubleHyphen (c2 :: rest) = true := by
        simpa [hasDoubleHyphen, if_neg hc] using h
      obtain ⟨l1, l2, heq⟩ := hasDoubleHyphen_exists (c2 :: rest) hrest
      exact ⟨c1 :: l1, l2, by simp [heq]⟩

theorem hasDoubleHyphen_append (l1 l2 : List Char) :
    hasDoubleHyphen (l1 ++ '-' :: '-' :: l2) = true := by
  induction l1 with
  | nil => simp [hasDoubleHyphen]
  | cons c r ih =>
    show hasDoubleHyphen (c :: (r ++ '-' :: '-' :: l2)) = true
    cases hr : r ++ '-' :: '-' :: l2 with
    | nil => exact absurd hr (by simp)
    | cons d rest2 =>
      by_cases hc : c = '-' ∧ d = '-'
      · simp [hasDoubleHyphen, if_pos hc]
      · simp only [hasDoubleHyphen, if_neg hc]
        exact hr ▸ ih

theorem hasDoubleHyphen_reverse_false (l : List Char)
    (h : hasDoubleHyphen l = false) :
    hasDoubleHyphen l.reverse = false := by
  by_contra hcon
  have htrue : hasDoubleHyphen l.reverse = true := by
    revert hcon
    cases hasDoubleHyphen l.reverse <;> simp
  obtain ⟨l1, l2, heq⟩ := hasDoubleHyphen_exists _ htrue
  have hl : l = l2.reverse ++ '-' :: '-' :: l1.reverse := by
    have h2 := congrArg List.reverse heq
    simp only [List.reverse_reverse, List.reverse_append, List.reverse_cons,
      List.append_assoc] at h2
    simpa using h2
  rw [hl, hasDoubleHyphen_append] at h
  simp at h

theorem hasDoubleHyphen_dropWhile_false (p : Char → Bool) :
    ∀ l : List Char, hasDoubleHyphen l = false →
      hasDoubleHyphen (l.dropWhile p) = false
  | [] => fun h => h
  | c :: rest => by
    intro h
    have hrest := hasDoubleHyphen_tail_false c rest h
    by_cases hp : p c
    · rw [List.dropWhile_cons, if_pos hp]
      exact hasDoubleHyphen_dropWhile_false p rest hrest
    · rw [List.dropWhile_cons, if_neg hp]
      exact h

theorem squashHyphensAux_true_head :
    ∀ l : List Char, ∀ h, (squashHyphensAux true l).head? = some h → h ≠ '-'
  | [] => by simp [squashHyphensAux]
  | c :: rest => by
    intro h hh
    by_cases h1 : c = '-'
    · simp only [squashHyphensAux, if_pos h1, if_pos rfl] at hh
      exact squashHyphensAux_true_head rest h (by simpa using hh)
    · simp only [squashHyphensAux, if_neg h1, List.head?_cons,
        Option.some.injEq] at hh
      subst hh
      exact h1

theorem hasDoubleHyphen_squashAux :
    ∀ (l : List Char) (b : Bool),
      hasDoubleHyphen (squashHyphensAux b l) = false
  | [], _ => rfl
  | c :: rest, b => by
    by_cases h1 : c = '-'
    · cases b with
      | true =>
        have ih := hasDoubleHyphen_squashAux rest true
        simpa [squashHyphensAux, h1] using ih
      | false =>
        have ih := hasDoubleHyphen_squashAux rest true
        simp only [squashHyphensAux, if_pos h1]
        cases hx : squashHyphensAux true rest with
        | nil => simp [hasDoubleHyphen]
        | cons d xs =>
          have hd : d ≠ '-' :=
            squashHyphensAux_true_head rest d (by rw [hx]; rfl)
          simp only [hasDoubleHyphen]
          rw [if_neg (by simp [hd])]
          rw [← hx]
          exact ih
    · have ih := hasDoubleHyphen_squashAux rest false
      simp only [squashHyphensAux, if_neg h1]
      cases hx : squashHyphensAux false rest with
      | nil => simp [hasDoubleHyphen]
      | cons d xs =>
        have hcond : ¬(c = '-' ∧ d = '-') := fun hc => h1 hc.1
        simp only [hasDoubleHyphen, if_neg hcond]
        rw [← hx]
        exact ih

theorem mem_squashHyphensAux :
    ∀ (l : List Char) (b : Bool) (c : Char),
      c ∈ squashHyphensAux b l → c = '-' ∨ c ∈ l
  | [], _, c => by simp [squashHyphensAux]
  | d :: rest, b, c => by
    intro hc
    by_cases h1 : d = '-'
    · have hmem : c = '-' ∨ c ∈ squashHyphensAux true rest := by
        cases b with
        | false =>
          rw [show squashHyphensAux false (d :: rest) =
              '-' :: squashHyphensAux true rest from by
            simp [squashHyphensAux, h1]] at hc
          simpa using hc
        | true =>
          rw [show squashHyphensAux true (d :: rest) =
              squashHyphensAux true rest from by
            simp [squashHyphensAux, h1]] at hc
          exact Or.inr hc
      rcases hmem with h2 | h2
      · exact Or.inl h2
      · rcases mem_squashHyphensAux rest true c h2 with h3 | h3
        · exact Or.inl h3
        · exact Or.inr (List.mem_cons_of_mem d h3)
    · rw [show squashHyphensAux b (d :: rest) =
          d :: squashHyphensAux false rest from by
        simp [squashHyphensAux, h1]] at hc
      rcases List.mem_cons.mp hc with h2 | h2
      · exact Or.inr (h2 ▸ List.mem_cons_self d rest)
      · rcases mem_squashHyphensAux rest false c h2 with h3 | h3
        · exact Or.inl h3
        · exact Or.inr (List.mem_cons_of_mem d h3)

/-! ## Trimming lemmas -/

theorem dropWhile_head_false {α : Type} (p : α → Bool) :
    ∀ (l : List α) (h : α), (List.dropWhile p l).head? = some h → p h = false
  | [] => by simp
  | c :: rest => by
    intro h hh
    by_cases hp : p c
    · rw [List.dropWhile_cons, if_pos hp] at hh
      exact dropWhile_head_false p rest h hh
    · rw [List.dropWhile_cons, if_neg hp] at hh
      simp only [List.head?_cons, Option.some.injEq] at hh
      subst hh
      simpa using hp

theorem dropWhile_id_of_head {α : Type} (p : α → Bool) (l : List α)
    (h : ∀ x, l.head? = some x → p x = false) : List.dropWhile p l = l := by
  cases l with
  | nil => rfl
  | cons c rest =>
    rw [List.dropWhile_cons, if_neg (by simp [h c rfl])]

theorem dropWhile_getLast {α : Type} (p : α → Bool) :
    ∀ l : List α, List.dropWhile p l ≠ [] →
      (List.dropWhile p l).getLast? = l.getLast?
  | [] => by simp
  | c :: rest => by
    intro hne
    by_cases hp : p c
    · rw [List.dropWhile_cons, if_pos hp] at hne ⊢
      have hrest : rest ≠ [] := by
        intro h0
        subst h0
        exact hne rfl
      rw [dropWhile_getLast p rest hne]
      cases rest with
      | nil => exact absurd rfl hrest
      | cons d r2 => rw [List.getLast?_cons_cons]
    · rw [List.dropWhile_cons, if_neg hp]

theorem trimHyphens_getLast (l : List Char) (h : Char)
    (hh : (trimHyphens l).getLast? = some h) : h ≠ '-' := by
  unfold trimHyphens at hh
  rw [List.getLast?_reverse] at hh
  have := dropWhile_head_false _ _ h hh
  simpa using this

theorem trimHyphens_head (l : List Char) (h : Char)
    (hh : (trimHyphens l).head? = some h) : h ≠ '-' := by
  unfold trimHyphens at hh
  rw [List.head?_reverse] at hh
  have hne :
      List.dropWhile (fun c => decide (c = '-'))
        ((List.dropWhile (fun c => decide (c = '-')) l).reverse) ≠ [] := by
    intro h0
    rw [h0] at hh
    simp at hh
  rw [dropWhile_getLast _ _ hne, List.getLast?_reverse] at hh
  have := dropWhile_head_false _ _ h hh
  simpa using this

theorem trimHyphens_id (l : List Char)
    (hhead : ∀ h, l.head? = some h → h ≠ '-')
    (hlast : ∀ h, l.getLast? = some h → h ≠ '-') : trimHyphens l = l := by
  unfold trimHyphens
  rw [dropWhile_id_of_head _ l (fun x hx => by simpa using hhead x hx)]
  rw [dropWhile_id_of_head _ l.reverse (fun x hx => by
    rw [List.head?_reverse] at hx
    simpa using hlast x hx)]
  exact List.reverse_reverse l

theorem mem_trimHyphens (l : List Char) (c : Char)
    (hc : c ∈ trimHyphens l) : c ∈ l := by
  unfold trimHyphens at hc
  rw [List.mem_reverse] at hc
  have h2 := (List.dropWhile_sublist _).subset hc
  rw [List.mem_reverse] at h2
  exact (List.dropWhile_sublist _).subset h2

/-! ## Character-level facts about the slug alphabet -/

theorem toLowerChar_eq_self (c : Char) (h : isEligible c = true) :
    toLowerChar c = c := by
  have hp := of_decide_eq_true h
  unfold toLowerChar
  rcases hp with ⟨ha, hb⟩ | ⟨ha, hb⟩ | he
  · rw [if_neg]
    intro hcond
    exact absurd (le_trans ha hcond.2) (by decide)
  · rw [if_neg]
    intro hcond
    exact absurd (le_trans hcond.1 hb) (by decide)
  · subst he
    rfl

theorem eligible_ne_space (c : Char) (h : isEligible c = true) : c ≠ ' ' := by
  have hp := of_decide_eq_true h
  intro he
  subst he
  rcases hp with ⟨ha, _⟩ | ⟨ha, _⟩ | he2
  · exact absurd ha (by decide)
  · exact absurd ha (by decide)
  · exact absurd he2 (by decide)

theorem stringsToLower_id (l : List Char)
    (h : ∀ c ∈ l, isEligible c = true) : stringsToLower l = l := by
  unfold stringsToLower
  induction l with
  | nil => rfl
  | cons c rest ih =>
    rw [List.map_cons, toLowerChar_eq_self c (h c (List.mem_cons_self c rest)),
      ih (fun x hx => h x (List.mem_cons_of_mem c hx))]

theorem replaceSpaces_id (l : List Char)
    (h : ∀ c ∈ l, isEligible c = true) : replaceSpaces l = l := by
  unfold replaceSpaces
  induction l with
  | nil => rfl
  | cons c rest ih =>
    rw [List.map_cons,
      if_neg (eligible_ne_space c (h c (List.mem_cons_self c rest))),
      ih (fun x hx => h x (List.mem_cons_of_mem c hx))]

/-! ## The slug normal form -/

theorem generateSlug_all_eligible (t : List Char) :
    ∀ c ∈ generateSlug t, isEligible c = true := by
  intro c hc
  unfold generateSlug at hc
  have hc2 := mem_trimHyphens _ c hc
  rw [collapseHyphens_eq_squash] at hc2
  rcases mem_squashHyphensAux _ false c hc2 with h | h
  · subst h
    decide
  · exact (List.mem_filter.mp h).2

theorem generateSlug_no_double (t : List Char) :
    hasDoubleHyphen (generateSlug t) = false := by
  unfold generateSlug trimHyphens
  rw [collapseHyphens_eq_squash]
  apply hasDoubleHyphen_reverse_false
  apply hasDoubleHyphen_dropWhile_false
  apply hasDoubleHyphen_reverse_false
  apply hasDoubleHyphen_dropWhile_false
  exact hasDoubleHyphen_squashAux _ false

theorem generateSlug_head (t : List Char) :
    ∀ h, (generateSlug t).head? = some h → h ≠ '-' := by
  intro h hh
  unfold generateSlug at hh
  exact trimHyphens_head _ h hh

theorem generateSlug_getLast (t : List Char) :
    ∀ h, (generateSlug t).getLast? = some h → h ≠ '-' := by
  intro h hh
  unfold generateSlug at hh
  exact trimHyphens_getLast _ h hh

theorem generateSlug_id_of_normal (l : List Char)
    (hel : ∀ c ∈ l, isEligible c = true)
    (hnd : hasDoubleHyphen l = false)
    (hhead : ∀ h, l.head? = some h → h ≠ '-')
    (hlast : ∀ h, l.getLast? = some h → h ≠ '-') :
    generateSlug l = l := by
  unfold generateSlug
  rw [stringsToLower_id l hel, replaceSpaces_id l hel,
    List.filter_eq_self.mpr hel, collapseHyphens_eq_squash]
  rw [show squashHyphens l = l from (squash_id_of_no_double l hnd).1]
  exact trimHyphens_id l hhead hlast

theorem generateSlug_idem_list (t : List Char) :
    generateSlug (generateSlug t) = generateSlug t :=
  generateSlug_id_of_normal (generateSlug t)
    (generateSlug_all_eligible t)
    (generateSlug_no_double t)
    (generateSlug_head t)
    (generateSlug_getLast t)

/-! ## Store lemmas -/

theorem find?_id_eq_none (id : Nat) (rows : List Post)
    (h : ∀ r ∈ rows, r.id ≠ id) :
    rows.find? (fun r => decide (r.id = id)) = none :=
  List.find?_eq_none.mpr (fun x hx => by simpa using h x hx)

theorem find?_slug_eq_none (sl : String) (rows : List Post)
    (h : ∀ r ∈ rows, r.slug ≠ some sl) :
    rows.find? (fun r => decide (r.slug = some sl)) = none :=
  List.find?_eq_none.mpr (fun x hx => by simpa using h x hx)

theorem GetPostByID_notFound (id : Nat) (s : Store)
    (h : ∀ r ∈ s.rows, r.id ≠ id) :
    GetPostByID id s = .error .notFound := by
  unfold GetPostByID
  rw [find?_id_eq_none id s.rows h]

theorem GetPostBySlug_notFound (sl : String) (s : Store)
    (h : ∀ r ∈ s.rows, r.slug ≠ some sl) :
    GetPostBySlug sl s = .error .notFound := by
  unfold GetPostBySlug
  rw [find?_slug_eq_none sl s.rows h]

theorem GetPostByID_ok (id : Nat) (s : Store) (p : Post)
    (h : GetPostByID id s = .ok p) :
    s.rows.find? (fun r => decide (r.id = id)) = some p := by
  unfold GetPostByID at h
  cases hf : s.rows.find? (fun r => decide (r.id = id)) with
  | some q =>
    rw [hf] at h
    cases h
    rfl
  | none =>
    rw [hf] at h
    cases h

theorem GetPostBySlug_ok (sl : String) (s : Store) (p : Post)
    (h : GetPostBySlug sl s = .ok p) :
    s.rows.find? (fun r => decide (r.slug = some sl)) = some p := by
  unfold GetPostBySlug at h
  cases hf : s.rows.find? (fun r => decide (r.slug = some sl)) with
  | some q =>
    rw [hf] at h
    cases h
    rfl
  | none =>
    rw [hf] at h
    cases h

theorem find?_map_update (id : Nat) (f : Post → Post)
    (hf : ∀ x, (f x).id = x.id) :
    ∀ (rows : List Post) (r : Post),
      rows.find? (fun x => decide (x.id = id)) = some r →
      (rows.map (fun x => if x.id = id then f x else x)).find?
        (fun x => decide (x.id = id)) = some (f r)
  | [], r => by simp
  | c :: rest, r => by
    intro hfind
    by_cases hc : c.id = id
    · have hcd : decide (c.id = id) = true := by simpa using hc
      simp only [List.find?_cons, hcd] at hfind
      obtain rfl : c = r := by simpa using hfind
      simp only [List.map_cons, if_pos hc, List.find?_cons]
      have h2 : decide ((f c).id = id) = true := by simp [hf c, hc]
      simp [h2]
    · have hcd : decide (c.id = id) = false := by simpa using hc
      simp only [List.find?_cons, hcd] at hfind
      simp only [List.map_cons, if_neg hc, List.find?_cons, hcd]
      exact find?_map_update id f hf rest r hfind

theorem UpdatePostByID_ok_eq (now id : Nat) (upd : PostUpdate) (s : Store)
    (r : Post)
    (hfind : s.rows.find? (fun x => decide (x.id = id)) = some r) :
    UpdatePostByID now id upd s =
      .ok (applyPostUpdate now upd r,
        { s with rows := s.rows.map (fun x =>
            if x.id = id then applyPostUpdate now upd x else x) }) := by
  unfold UpdatePostByID
  rw [hfind,
    find?_map_update id (applyPostUpdate now upd) (fun _ => rfl) s.rows r hfind]

theorem UpdatePostByID_notFound (now id : Nat) (upd : PostUpdate) (s : Store)
    (h : ∀ x ∈ s.rows, x.id ≠ id) :
    UpdatePostByID now id upd s = .error .notFound := by
  unfold UpdatePostByID
  rw [find?_id_eq_none id s.rows h]

theorem UpdatePostByID_ok_inv (now id : Nat) (upd : PostUpdate) (s : Store)
    (p : Post) (s2 : Store) (h : UpdatePostByID now id upd s = .ok (p, s2)) :
    s2 = { s with rows := s.rows.map (fun x =>
      if x.id = id then applyPostUpdate now upd x else x) } := by
  unfold UpdatePostByID at h
  cases hf : s.rows.find? (fun x => decide (x.id = id)) with
  | none =>
    rw [hf] at h
    cases h
  | some q =>
    rw [hf] at h
    cases hf2 : (s.rows.map (fun x =>
        if x.id = id then applyPostUpdate now upd x else x)).find?
        (fun x => decide (x.id = id)) with
    | none =>
      rw [hf2] at h
      cases h
    | some q2 =>
      rw [hf2] at h
      cases h
      rfl

/-! ## The store invariant -/

/-- Invariant of reachable table states: primary-key ids are pairwise
distinct, non-NULL slugs are pairwise distinct, no row carries the
empty string as a non-NULL slug (creation goes through
`CreatePostFromInput`, which nulls empty inputs), and every id is below
the AUTOINCREMENT counter. -/
def StoreInv (s : Store) : Prop :=
  List.Pairwise (fun a b => a.id ≠ b.id) s.rows ∧
  List.Pairwise (fun a b => ∀ x, a.slug = some x → b.slug ≠ some x) s.rows ∧
  (∀ r ∈ s.rows, r.slug ≠ some "") ∧
  (∀ r ∈ s.rows, r.id < s.nextId)

theorem storeInv_empty : StoreInv Store.empty := by
  refine ⟨List.Pairwise.nil, List.Pairwise.nil, ?_, ?_⟩ <;>
    intro r hr <;> simp [Store.empty] at hr

theorem CreatePost_ok_inv (now : Nat) (post p : Post) (s s2 : Store)
    (h : CreatePost now post s = .ok (p, s2)) :
    slugConflict post.slug s = false ∧
    p = { post with id := s.nextId, createdAt := some now, updatedAt := some now } ∧
    s2 = { rows := s.rows ++ [p], nextId := s.nextId + 1 } := by
  unfold CreatePost at h
  by_cases hc : slugConflict post.slug s
  · rw [if_pos hc] at h
    cases h
  · rw [if_neg hc] at h
    cases h
    exact ⟨by simpa using hc, rfl, rfl⟩

theorem CreatePost_conflict (now : Nat) (post : Post) (s : Store)
    (hc : slugConflict post.slug s = true) :
    CreatePost now post s = .error .constraintViolation := by
  unfold CreatePost
  rw [if_pos hc]

theorem slugConflict_of_mem (sl : Option String) (s : Store) (x : String)
    (hx : sl = some x) (r : Post) (hr : r ∈ s.rows)
    (hrs : r.slug = some x) : slugConflict sl s = true := by
  subst hx
  unfold slugConflict
  rw [List.any_eq_true]
  exact ⟨r, hr, by simp [hrs]⟩

theorem slugConflict_false (sl : Option String) (s : Store)
    (h : slugConflict sl s = false) :
    ∀ a ∈ s.rows, ∀ x, a.slug = some x → sl ≠ some x := by
  intro a ha x hax heq
  rw [slugConflict_of_mem sl s x heq a ha hax] at h
  cases h

theorem createInput_slug_ne_empty (t1 c1 a1 sl1 : String) :
    (CreatePostFromInput t1 c1 a1 sl1).slug ≠ some "" := by
  unfold CreatePostFromInput StringToNullString
  by_cases h : sl1 = "" <;> simp [h]

theorem storeInv_update (now id : Nat) (upd : PostUpdate) (s : Store)
    (p : Post) (s2 : Store) (h : UpdatePostByID now id upd s = .ok (p, s2))
    (hinv : StoreInv s) : StoreInv s2 := by
  obtain ⟨h1, h2, h3, h4⟩ := hinv
  rw [UpdatePostByID_ok_inv now id upd s p s2 h]
  have gid : ∀ x : Post,
      (if x.id = id then applyPostUpdate now upd x else x).id = x.id := by
    intro x
    by_cases hx : x.id = id <;> simp [hx, applyPostUpdate]
  have gslug : ∀ x : Post,
      (if x.id = id then applyPostUpdate now upd x else x).slug = x.slug := by
    intro x
    by_cases hx : x.id = id <;> simp [hx, applyPostUpdate]
  refine ⟨?_, ?_, ?_, ?_⟩
  · exact List.pairwise_map.mpr (h1.imp (fun hab => by
      rw [gid, gid]
      exact hab))
  · exact List.pairwise_map.mpr (h2.imp (fun hab => by
      rw [gslug, gslug]
      exact hab))
  · intro r hr
    obtain ⟨x, hx, rfl⟩ := List.mem_map.mp hr
    rw [gslug]
    exact h3 x hx
  · intro r hr
    obtain ⟨x, hx, rfl⟩ := List.mem_map.mp hr
    rw [gid]
    exact h4 x hx

theorem storeInv_create (now : Nat) (t1 c1 a1 sl1 : String) (p : Post)
    (s s2 : Store)
    (h : CreatePost now (CreatePostFromInput t1 c1 a1 sl1) s = .ok (p, s2))
    (hinv : StoreInv s) : StoreInv s2 := by
  obtain ⟨hfalse, hp, hs2⟩ := CreatePost_ok_inv now _ p s s2 h
  obtain ⟨h1, h2, h3, h4⟩ := hinv
  subst hp
  subst hs2
  refine ⟨?_, ?_, ?_, ?_⟩
  · rw [List.pairwise_append]
    refine ⟨h1, by simp, ?_⟩
    intro a ha b hb
    rw [List.mem_singleton] at hb
    subst hb
    have := h4 a ha
    simp only []
    omega
  · rw [List.pairwise_append]
    refine ⟨h2, by simp, ?_⟩
    intro a ha b hb x hax
    rw [List.mem_singleton] at hb
    subst hb
    have hcross := slugConflict_false _ s hfalse a ha x hax
    simpa using hcross
  · intro r hr
    rw [List.mem_append] at hr
    rcases hr with hr | hr
    · exact h3 r hr
    · rw [List.mem_singleton] at hr
      subst hr
      simpa using createInput_slug_ne_empty t1 c1 a1 sl1
  · intro r hr
    rw [List.mem_append] at hr
    rcases hr with hr | hr
    · have := h4 r hr
      simp only []
      omega
    · rw [List.mem_singleton] at hr
      subst hr
      simp

theorem storeInv_filter (s : Store) (q : Post → Bool) (hinv : StoreInv s) :
    StoreInv { s with rows := s.rows.filter q } := by
  obtain ⟨h1, h2, h3, h4⟩ := hinv
  have hsub := List.filter_sublist (p := q) s.rows
  refine ⟨List.Pairwise.sublist hsub h1, List.Pairwise.sublist hsub h2,
    ?_, ?_⟩
  · intro r hr
    exact h3 r (hsub.subset hr)
  · intro r hr
    exact h4 r (hsub.subset hr)

theorem storeInv_step (s s2 : Store) (h : Step s s2) (hinv : StoreInv s) :
    StoreInv s2 := by
  cases h with
  | create now t1 c1 a1 sl1 p hstep =>
    exact storeInv_create now t1 c1 a1 sl1 p s s2 hstep hinv
  | updateByID now id upd p hstep =>
    exact storeInv_update now id upd s p s2 hstep hinv
  | updateBySlug now sl upd p hstep =>
    unfold UpdatePostBySlug at hstep
    cases hg : GetPostBySlug sl s with
    | error e =>
      rw [hg] at hstep
      cases hstep
    | ok ep =>
      rw [hg] at hstep
      exact storeInv_update now ep.id upd s p s2 hstep hinv
  | deleteByID id hstep =>
    unfold DeletePostByID at hstep
    cases hstep
    exact storeInv_filter s _ hinv
  | deleteBySlug sl hstep =>
    unfold DeletePostBySlug at hstep
    cases hstep
    exact storeInv_filter s _ hinv

theorem storeInv_reachable (s : Store) (h : Reachable s) : StoreInv s := by
  unfold Reachable at h
  induction h with
  | refl => exact storeInv_empty
  | tail _ h2 ih => exact storeInv_step _ _ h2 ih

theorem find?_id_of_mem (rows : List Post)
    (hids : List.Pairwise (fun a b => a.id ≠ b.id) rows) :
    ∀ r ∈ rows, rows.find? (fun x => decide (x.id = r.id)) = some r := by
  induction rows with
  | nil =>
    intro r hr
    simp at hr
  | cons c rest ih =>
    intro r hr
    rcases List.mem_cons.mp hr with rfl | hr2
    · rw [List.find?_cons]
      simp
    · have hc : c.id ≠ r.id := (List.pairwise_cons.mp hids).1 r hr2
      have hcd : decide (c.id = r.id) = false := by simpa using hc
      rw [List.find?_cons]
      simp only [hcd]
      exact ih (List.pairwise_cons.mp hids).2 r hr2

/-- The update-by-slug operation as the specification words it: resolve
the slug to an id first (via GetBySlug semantics), then perform the same
update as UpdateByID on the resolved id, propagating a failed
resolution. -/
def UpdateBySlugResolveFirst (now : Nat) (slug : String) (upd : PostUpdate)
    (s : Store) : Except DbError (Post × Store) :=
  (GetPostBySlug slug s).bind (fun p => UpdatePostByID now p.id upd s)

theorem UpdatePostByID_isOk (now id : Nat) (upd : PostUpdate) (s : Store)
    (r : Post) (hr : r ∈ s.rows) (hid : r.id = id) :
    ∃ p2 s2, UpdatePostByID now id upd s = .ok (p2, s2) := by
  cases hf : s.rows.find? (fun x => decide (x.id = id)) with
  | none =>
    rw [List.find?_eq_none] at hf
    exact absurd (by simp [hid]) (hf r hr)
  | some q =>
    exact ⟨_, _, UpdatePostByID_ok_eq now id upd s q hf⟩

/-! ## Concrete stores used to instantiate the theorems -/

/-- The row produced by creating a post `("Hello", "world", "Ann",
"hello")` at time 1 in the fresh store. -/
def demoPost : Post :=
  { id := 1, title := "Hello", content := some "world",
    author := some "Ann", slug := some "hello",
    createdAt := some 1, updatedAt := some 1 }

/-- The store holding exactly `demoPost`. -/
def demoStore : Store := { rows := [demoPost], nextId := 2 }

theorem demoStore_reachable : Reachable demoStore :=
  Relation.ReflTransGen.single
    (Step.create 1 "Hello" "world" "Ann" "hello" demoPost rfl)

/-- A store holding one post `{title "A", content "B", author "C"}`,
built through the creation path. -/
def mergeStore : Store :=
  match CreatePost 1 (CreatePostFromInput "A" "B" "C" "a-post") Store.empty with
  | .ok r => r.2
  | .error _ => Store.empty

/-- The row stored in `mergeStore`. -/
def mergePost : Post :=
  { id := 1, title := "A", content := some "B", author := some "C",
    slug := some "a-post", createdAt := some 1, updatedAt := some 1 }

/-- A sample update struct. -/
def updDemo : PostUpdate := { title := "T2", content := "C2", author := "A2" }

/-! ## The claims -/

/-- C1: for every store state, `List(limit, offset)` returns the posts
ordered by `created_at` descending (most recent first) when
`limit > 0` — the result is the limit/offset window of a
descending-by-created_at sorted permutation of all rows and is itself
sorted descending — and returns all posts (a permutation of every row)
ordered by ascending `id` when `limit <= 0`; the two orderings come
from the two distinct query paths of the dispatch. -/
theorem listPosts_two_orderings (s : Store) (limit offset : Int) :
    (limit > 0 →
      ∃ allSorted : List Post,
        allSorted.Perm s.rows ∧ List.Sorted createdDesc allSorted ∧
        ListPosts limit offset s =
          (allSorted.drop offset.toNat).take limit.toNat ∧
        List.Sorted createdDesc (ListPosts limit offset s)) ∧
    (limit ≤ 0 →
      (ListPosts limit offset s).Perm s.rows ∧
      List.Sorted idAsc (ListPosts limit offset s)) := by
  constructor
  · intro hpos
    refine ⟨List.insertionSort createdDesc s.rows,
      List.perm_insertionSort createdDesc s.rows,
      List.sorted_insertionSort createdDesc s.rows, ?_, ?_⟩
    · unfold ListPosts
      rw [if_pos hpos]
    · unfold ListPosts
      rw [if_pos hpos]
      have hsub : List.Sublist
          (((List.insertionSort createdDesc s.rows).drop offset.toNat).take
            limit.toNat)
          (List.insertionSort createdDesc s.rows) :=
        (List.take_sublist _ _).trans (List.drop_sublist _ _)
      exact List.Pairwise.sublist hsub
        (List.sorted_insertionSort createdDesc s.rows)
  · intro hn
    have hneg : ¬(limit > 0) := by omega
    unfold ListPosts
    rw [if_neg hneg]
    exact ⟨List.perm_insertionSort idAsc s.rows,
      List.sorted_insertionSort idAsc s.rows⟩

theorem listPosts_two_orderings_check :
    List.Sorted createdDesc (ListPosts 1 0 demoStore) ∧
    (ListPosts 0 0 demoStore).Perm demoStore.rows :=
  ⟨(((listPosts_two_orderings demoStore 1 0).1 (by decide)).choose_spec).2.2.2,
   ((listPosts_two_orderings demoStore 0 0).2 (by decide)).1⟩

/-- C2: deleting an id that matches no row succeeds and leaves the
store unchanged — the delete path does not inspect the affected row
count, so a non-existent id is a successful no-op, not an error. -/
theorem deletePostByID_missing_noop (s : Store) (id : Nat)
    (h : ∀ r ∈ s.rows, r.id ≠ id) : DeletePostByID id s = .ok s := by
  unfold DeletePostByID
  rw [List.filter_eq_self.mpr (fun a ha => by simp [h a ha])]

theorem deletePostByID_missing_noop_check :
    DeletePostByID 99 demoStore = .ok demoStore :=
  deletePostByID_missing_noop demoStore 99 (by decide)

/-- C3 counterexample: the claim states that an update supplying only
the title leaves content and author at their prior values.  On the
store holding `{title "A", content "B", author "C"}`, the update built
by the flag-presence logic with only `--title Z` supplied yields
content `""` and author `""` — the prior values `"B"` and `"C"` are not
retained. -/
theorem updatePost_unset_not_retained_cex :
    GetPostByID 1 mergeStore = .ok mergePost ∧
    mergePost.content = some "B" ∧ mergePost.author = some "C" ∧
    (UpdatePostByID 2 1 (buildCmdUpdates true "Z" false "" false "")
        mergeStore).map (fun r => (r.1.title, r.1.content, r.1.author)) =
      .ok ("Z", some "", some "") ∧
    (some "" : Option String) ≠ mergePost.content ∧
    (some "" : Option String) ≠ mergePost.author := by
  refine ⟨rfl, rfl, rfl, rfl, by decide, by decide⟩

/-- C3 amended: the update pipeline replaces the supplied fields with
the supplied values and resets each unsupplied field to the Go zero
value (the empty string, stored as a non-NULL empty column value by the
update statement) instead of retaining the existing value; `slug` and
`created_at` are untouched. -/
theorem updatePost_writes_flag_values (now id : Nat) (s : Store) (p : Post)
    (tS cS aS : Bool) (tv cv av : String)
    (hget : GetPostByID id s = .ok p) :
    ∃ p2 s2,
      UpdatePostByID now id (buildCmdUpdates tS tv cS cv aS av) s =
        .ok (p2, s2) ∧
      p2.title = (if tS then tv else "") ∧
      p2.content = some (if cS then cv else "") ∧
      p2.author = some (if aS then av else "") ∧
      p2.slug = p.slug ∧ p2.createdAt = p.createdAt := by
  have hfind := GetPostByID_ok id s p hget
  exact ⟨_, _, UpdatePostByID_ok_eq now id _ s p hfind, rfl, rfl, rfl, rfl, rfl⟩

theorem updatePost_writes_flag_values_check :
    ∃ p2 s2,
      UpdatePostByID 2 1 (buildCmdUpdates true "Z" false "" false "")
        mergeStore = .ok (p2, s2) ∧
      p2.title = (if true then "Z" else "") ∧
      p2.content = some (if false then "" else "") ∧
      p2.author = some (if false then "" else "") ∧
      p2.slug = mergePost.slug ∧ p2.createdAt = mergePost.createdAt :=
  updatePost_writes_flag_values 2 1 mergeStore mergePost true false false
    "Z" "" "" rfl

/-- C4: a successful update of an existing post (by id, or by slug via
the resolve-then-update path) sets `updated_at` to the current time —
strictly after the stored value, the clock having advanced — and may
change only `title`, `content` and `author`; `created_at`, `slug` and
`id` of the updated post are identical to their prior values.  The
pairwise-distinct-ids hypothesis is the primary-key property of the
table, which holds in every reachable state. -/
theorem update_frame_effect (now : Nat) (upd : PostUpdate) (s : Store)
    (hids : List.Pairwise (fun a b => a.id ≠ b.id) s.rows) :
    (∀ id p t, GetPostByID id s = .ok p → p.updatedAt = some t → t < now →
      ∃ p2 s2, UpdatePostByID now id upd s = .ok (p2, s2) ∧
        p2.updatedAt = some now ∧ t < now ∧
        p2.createdAt = p.createdAt ∧ p2.slug = p.slug ∧ p2.id = p.id ∧
        p2.title = upd.title ∧ p2.content = some upd.content ∧
        p2.author = some upd.author) ∧
    (∀ sl p t, GetPostBySlug sl s = .ok p → p.updatedAt = some t → t < now →
      ∃ p2 s2, UpdatePostBySlug now sl upd s = .ok (p2, s2) ∧
        p2.updatedAt = some now ∧ t < now ∧
        p2.createdAt = p.createdAt ∧ p2.slug = p.slug ∧ p2.id = p.id ∧
        p2.title = upd.title ∧ p2.content = some upd.content ∧
        p2.author = some upd.author) := by
  constructor
  · intro id p t hget _ hlt
    have hfind := GetPostByID_ok id s p hget
    exact ⟨applyPostUpdate now upd p, _,
      UpdatePostByID_ok_eq now id upd s p hfind,
      rfl, hlt, rfl, rfl, rfl, rfl, rfl, rfl⟩
  · intro sl p t hget _ hlt
    have hfind := GetPostBySlug_ok sl s p hget
    have hmem := List.mem_of_find?_eq_some hfind
    have hfid := find?_id_of_mem s.rows hids p hmem
    have hslug : GetPostBySlug sl s = .ok p := by
      unfold GetPostBySlug
      rw [hfind]
    refine ⟨applyPostUpdate now upd p,
      { s with rows := s.rows.map (fun x =>
          if x.id = p.id then applyPostUpdate now upd x else x) }, ?_,
      rfl, hlt, rfl, rfl, rfl, rfl, rfl, rfl⟩
    unfold UpdatePostBySlug
    rw [hslug]
    exact UpdatePostByID_ok_eq now p.id upd s p hfid

theorem update_frame_effect_check :
    (∃ p2 s2, UpdatePostByID 2 1 updDemo demoStore = .ok (p2, s2) ∧
      p2.updatedAt = some 2 ∧ 1 < 2 ∧
      p2.createdAt = demoPost.createdAt ∧ p2.slug = demoPost.slug ∧
      p2.id = demoPost.id ∧ p2.title = updDemo.title ∧
      p2.content = some updDemo.content ∧
      p2.author = some updDemo.author) ∧
    (∃ p2 s2, UpdatePostBySlug 2 "hello" updDemo demoStore = .ok (p2, s2) ∧
      p2.updatedAt = some 2 ∧ 1 < 2 ∧
      p2.createdAt = demoPost.createdAt ∧ p2.slug = demoPost.slug ∧
      p2.id = demoPost.id ∧ p2.title = updDemo.title ∧
      p2.content = some updDemo.content ∧
      p2.author = some updDemo.author) :=
  ⟨(update_frame_effect 2 updDemo demoStore (by decide)).1 1 demoPost 1
      rfl rfl (by decide),
   (update_frame_effect 2 updDemo demoStore (by decide)).2 "hello" demoPost 1
      rfl rfl (by decide)⟩

/-- C6: in every reachable store, `GetByID` fails with NotFound for any
id matching no row, `GetBySlug` fails with NotFound for any slug string
matching no row, and `GetBySlug ""` always fails with NotFound — no
reachable row carries an empty non-NULL slug (empty input slugs are
stored as NULL and NULL never equals the empty string in the lookup). -/
theorem reads_fail_notFound (s : Store) (hs : Reachable s) :
    (∀ id, (∀ r ∈ s.rows, r.id ≠ id) →
      GetPostByID id s = .error .notFound) ∧
    (∀ sl, (∀ r ∈ s.rows, r.slug ≠ some sl) →
      GetPostBySlug sl s = .error .notFound) ∧
    GetPostBySlug "" s = .error .notFound := by
  refine ⟨fun id h => GetPostByID_notFound id s h,
    fun sl h => GetPostBySlug_notFound sl s h, ?_⟩
  have hinv := storeInv_reachable s hs
  exact GetPostBySlug_notFound "" s hinv.2.2.1

theorem reads_fail_notFound_check :
    GetPostByID 42 demoStore = .error .notFound ∧
    GetPostBySlug "never-used" demoStore = .error .notFound ∧
    GetPostBySlug "" demoStore = .error .notFound :=
  ⟨(reads_fail_notFound demoStore demoStore_reachable).1 42 (by decide),
   (reads_fail_notFound demoStore demoStore_reachable).2.1 "never-used"
     (by decide),
   (reads_fail_notFound demoStore demoStore_reachable).2.2⟩

/-- C7: in every reachable store the non-NULL slugs of distinct posts
are pairwise distinct, and creating a post whose non-NULL slug is
already held by an existing post fails with the constraint violation —
the failing create returns only the error, so the store is left
unchanged. -/
theorem slug_uniqueness (s : Store) (hs : Reachable s) :
    List.Pairwise (fun a b => ∀ x, a.slug = some x → b.slug ≠ some x)
      s.rows ∧
    (∀ now post x, post.slug = some x → (∃ r ∈ s.rows, r.slug = some x) →
      CreatePost now post s = .error .constraintViolation) := by
  have hinv := storeInv_reachable s hs
  refine ⟨hinv.2.1, ?_⟩
  intro now post x hx hex
  obtain ⟨r, hr, hrs⟩ := hex
  exact CreatePost_conflict now post s
    (slugConflict_of_mem post.slug s x hx r hr hrs)

theorem slug_uniqueness_check :
    CreatePost 5 (CreatePostFromInput "Another" "" "" "hello") demoStore =
      .error .constraintViolation ∧
    List.Pairwise (fun a b => ∀ x, a.slug = some x → b.slug ≠ some x)
      demoStore.rows :=
  ⟨(slug_uniqueness demoStore demoStore_reachable).2 5
      (CreatePostFromInput "Another" "" "" "hello") "hello" rfl
      ⟨demoPost, by decide, by decide⟩,
   (slug_uniqueness demoStore demoStore_reachable).1⟩

/-- C8: `CreatePostFromInput` stores the title verbatim (empty string
allowed), maps each of content/author/slug from the empty string to the
absent (NULL) value and from a non-empty string to the present value
holding exactly that string, and leaves `id`, `created_at` and
`updated_at` unset (their zero values). -/
theorem createPostFromInput_fields (t1 c1 a1 sl1 : String) :
    (CreatePostFromInput t1 c1 a1 sl1).title = t1 ∧
    (CreatePostFromInput t1 c1 a1 sl1).content =
      (if c1 = "" then none else some c1) ∧
    (CreatePostFromInput t1 c1 a1 sl1).author =
      (if a1 = "" then none else some a1) ∧
    (CreatePostFromInput t1 c1 a1 sl1).slug =
      (if sl1 = "" then none else some sl1) ∧
    (CreatePostFromInput t1 c1 a1 sl1).id = 0 ∧
    (CreatePostFromInput t1 c1 a1 sl1).createdAt = none ∧
    (CreatePostFromInput t1 c1 a1 sl1).updatedAt = none :=
  ⟨rfl, rfl, rfl, rfl, rfl, rfl, rfl⟩

/-- C9: `UpdateBySlug` equals the operation that first resolves the
slug to an id via GetBySlug and then performs UpdateByID on that id
with the same partial; it fails with NotFound when no row matches the
slug, and succeeds whenever some row does. -/
theorem updateBySlug_is_resolve_then_update (now : Nat) (slug : String)
    (upd : PostUpdate) (s : Store) :
    UpdatePostBySlug now slug upd s =
      UpdateBySlugResolveFirst now slug upd s ∧
    ((∀ r ∈ s.rows, r.slug ≠ some slug) →
      UpdatePostBySlug now slug upd s = .error .notFound) ∧
    (∀ r ∈ s.rows, r.slug = some slug →
      ∃ p2 s2, UpdatePostBySlug now slug upd s = .ok (p2, s2)) := by
  refine ⟨?_, ?_, ?_⟩
  · unfold UpdatePostBySlug UpdateBySlugResolveFirst
    cases GetPostBySlug slug s <;> rfl
  · intro h
    unfold UpdatePostBySlug
    rw [GetPostBySlug_notFound slug s h]
  · intro r hr hrs
    cases hf : s.rows.find? (fun x => decide (x.slug = some slug)) with
    | none =>
      rw [List.find?_eq_none] at hf
      exact absurd (by simp [hrs]) (hf r hr)
    | some q =>
      have hq : GetPostBySlug slug s = .ok q := by
        unfold GetPostBySlug
        rw [hf]
      obtain ⟨p2, s2, hok⟩ := UpdatePostByID_isOk now q.id upd s q
        (List.mem_of_find?_eq_some hf) rfl
      refine ⟨p2, s2, ?_⟩
      unfold UpdatePostBySlug
      rw [hq]
      exact hok

theorem updateBySlug_is_resolve_then_update_check :
    (UpdatePostBySlug 3 "zzz" updDemo demoStore = .error .notFound) ∧
    (∃ p2 s2, UpdatePostBySlug 3 "hello" updDemo demoStore = .ok (p2, s2)) :=
  ⟨(updateBySlug_is_resolve_then_update 3 "zzz" updDemo demoStore).2.1
      (by decide),
   (updateBySlug_is_resolve_then_update 3 "hello" updDemo demoStore).2.2
      demoPost (by decide) (by decide)⟩

/-- C5 counterexample: the claim equates `generateSlug` with the pure
function that replaces runs of whitespace with a single hyphen.  On the
input `"a\tb"` (a tab between two letters) the source function yields
`"ab"` — the tab is dropped by the character filter, never hyphenated —
while the claimed function yields `"a-b"`. -/
theorem generateSlug_whitespace_cex :
    generateSlugStr "a\tb" = "ab" ∧ claimedSlugStr "a\tb" = "a-b" ∧
    generateSlugStr "a\tb" ≠ claimedSlugStr "a\tb" := by
  refine ⟨by decide, by decide, by decide⟩

/-- C5 amended: `GenerateSlug(title)` equals the pure function that
lower-cases the title, replaces each space (only U+0020, not other
whitespace) with a hyphen, drops every character that is not an ASCII
lowercase letter, ASCII digit or hyphen (other whitespace characters
are dropped here rather than hyphenated), collapses consecutive hyphens
into one and trims leading/trailing hyphens; the five concrete examples
of the claim all hold. -/
theorem generateSlug_matches_amended :
    (∀ s : String, generateSlugStr s = amendedSlugStr s) ∧
    generateSlugStr "Hello, World! & More #stuff" = "hello-world-more-stuff" ∧
    generateSlugStr "Too    Many     Spaces" = "too-many-spaces" ∧
    generateSlugStr "" = "" ∧
    generateSlugStr "!@#$%^&*()" = "" ∧
    generateSlugStr "Word---With---Hyphens" = "word-with-hyphens" := by
  refine ⟨?_, by decide, by decide, by decide, by decide, by decide⟩
  intro s
  unfold generateSlugStr amendedSlugStr
  exact congrArg String.mk (generateSlug_eq_amendedSlug_list s.data)

/-- C10: `GenerateSlug` is idempotent — its output contains only ASCII
lowercase letters, digits and hyphens, has no consecutive hyphens and
neither starts nor ends with a hyphen, so re-slugging a generated slug
leaves it unchanged. -/
theorem generateSlug_idempotent (s : String) :
    generateSlugStr (generateSlugStr s) = generateSlugStr s := by
  unfold generateSlugStr
  exact congrArg String.mk (generateSlug_idem_list s.data)

end CMS
